import Mathlib

/-!
Verification of the record reconciliation and aggregation core of the
mcd-dashboard repository (source: src/mcd_dashboard_v7.go, which contains two
revisions of the program: the v7 revision and the v16_fixed revision).

The Go code is shallowly embedded: strings are `List Char` / `String`,
Go `int` is `Int`, Go maps are functions `String → Option _` (or `String → Nat`
for counter maps, where a missing key reads as 0, exactly as in Go), and the
`float64` ratio is modelled as `ℚ` (the claims about it concern branch
structure, not rounding).  Loops over Go maps become folds over lists of the
map entries; all counters updated by those loops are order-independent.
-/

namespace MCD

/- ===================== Text Normalizer ===================== -/

/-- Whitespace characters accepted by Go `unicode.IsSpace` (used by
`strings.TrimSpace`): `\t \n \v \f \r space NEL NBSP` plus the Unicode
space separators. -/
def goSpaceChars : List Char :=
  [' ', '\t', '\n', Char.ofNat 11, Char.ofNat 12, '\r',
   Char.ofNat 0x85, Char.ofNat 0xA0, Char.ofNat 0x1680,
   Char.ofNat 0x2000, Char.ofNat 0x2001, Char.ofNat 0x2002, Char.ofNat 0x2003,
   Char.ofNat 0x2004, Char.ofNat 0x2005, Char.ofNat 0x2006, Char.ofNat 0x2007,
   Char.ofNat 0x2008, Char.ofNat 0x2009, Char.ofNat 0x200A,
   Char.ofNat 0x2028, Char.ofNat 0x2029, Char.ofNat 0x202F,
   Char.ofNat 0x205F, Char.ofNat 0x3000]

def isGoSpace (c : Char) : Bool := goSpaceChars.contains c

/-- Go `strings.TrimSpace`: drop leading and trailing whitespace. -/
def trimL (s : List Char) : List Char :=
  ((s.dropWhile isGoSpace).reverse.dropWhile isGoSpace).reverse

/-- Does the text contain two adjacent ASCII spaces?
(Go: `strings.Contains(s, "  ")`.) -/
def hasDouble : List Char → Bool
  | c :: d :: rest => (c = ' ' && d = ' ') || hasDouble (d :: rest)
  | _ => false

/-- One pass of Go `strings.ReplaceAll(s, "  ", " ")`: replace non-overlapping
occurrences of two spaces by one space, left to right. -/
def replaceDouble : List Char → List Char
  | c :: d :: rest =>
      if c = ' ' ∧ d = ' ' then ' ' :: replaceDouble rest
      else c :: replaceDouble (d :: rest)
  | l => l

/-- The `for strings.Contains(s, "  ") { s = strings.ReplaceAll(s, "  ", " ") }`
loop of `norm`, run with explicit fuel.  Each pass shortens the text whenever a
double space is present, so `s.length` passes always suffice; the fuel only
makes termination syntactic. -/
def collapseAux : Nat → List Char → List Char
  | 0, l => l
  | n + 1, l => if hasDouble l then collapseAux n (replaceDouble l) else l

def collapseSpaces (l : List Char) : List Char := collapseAux l.length l

/-- Go `norm`: strip BOM characters, turn NBSP into a space, trim, collapse
runs of internal spaces (identical in both revisions). -/
def normL (s : List Char) : List Char :=
  collapseSpaces (trimL ((s.filter (fun c => c ≠ Char.ofNat 0xFEFF)).map
    (fun c => if c = Char.ofNat 0xA0 then ' ' else c)))

/-- Go `stripDot0`: normalize, then drop a trailing literal ".0". -/
def stripDot0L (s : List Char) : List Char :=
  let t := normL s
  match t.reverse with
  | '0' :: '.' :: rest => rest.reverse
  | _ => t

def stripDot0 (s : String) : String := (stripDot0L s.toList).asString

/-- Go v16 `digitsOnly`: keep the decimal digits, in order, drop the rest. -/
def digitsOnlyL (s : List Char) : List Char := s.filter Char.isDigit

/-- Go v16 `normalizeEmpID`: `digitsOnly(stripDot0(s))` — the canonical
person-identifier resolution of the v16 revision. -/
def normalizeEmpID (s : String) : String :=
  (digitsOnlyL (stripDot0L s.toList)).asString

/- ===================== Unit identifier extraction ===================== -/

theorem dropWhile_length_le {α : Type} (p : α → Bool) :
    ∀ l : List α, (l.dropWhile p).length ≤ l.length
  | [] => le_refl _
  | c :: cs => by
      simp only [List.dropWhile]
      split
      · exact Nat.le_trans (dropWhile_length_le p cs) (Nat.le_succ _)
      · exact le_refl _

/-- Maximal runs of consecutive decimal digits in the text, in order. -/
def digitRuns : List Char → List (List Char)
  | [] => []
  | c :: cs =>
      if c.isDigit then
        ((c :: cs).takeWhile Char.isDigit) :: digitRuns ((c :: cs).dropWhile Char.isDigit)
      else digitRuns cs
  termination_by l => l.length
  decreasing_by
    · rename_i hdig
      have h := dropWhile_length_le Char.isDigit cs
      simp only [List.dropWhile_cons, hdig, if_true, List.length_cons]
      omega
    · simp only [List.length_cons]
      omega

/-- Leftmost match of the Go regex `(\d{5,})`: scan positions left to right;
at a digit position the greedy `\d{5,}` captures the whole maximal run ahead
and succeeds iff that run has at least 5 digits (shorter starting points
inside the same run only yield shorter runs, so skipping them is sound). -/
def findRun5 : List Char → Option (List Char)
  | [] => none
  | c :: cs =>
      if c.isDigit = true ∧ 5 ≤ ((c :: cs).takeWhile Char.isDigit).length then
        some ((c :: cs).takeWhile Char.isDigit)
      else findRun5 cs

/-- Leftmost match of the Go regex `(\d{5,})\D*$`: at a digit position the
match succeeds iff the maximal run ahead has at least 5 digits and no digit
occurs after it (the `\D*$` tail must absorb the whole remainder). -/
def findLastAnchored : List Char → Option (List Char)
  | [] => none
  | c :: cs =>
      if c.isDigit = true ∧ 5 ≤ ((c :: cs).takeWhile Char.isDigit).length ∧
          ((c :: cs).dropWhile Char.isDigit).all (fun d => !d.isDigit) = true then
        some ((c :: cs).takeWhile Char.isDigit)
      else findLastAnchored cs

/-- Go v16 `digitsOnlyKey`: normalize, then prefer the `rxLastNum`
(`(\d{5,})\D*$`) match, fall back to the `rxDigits` (`(\d{5,})`) match,
else return the empty string. -/
def digitsOnlyKeyL (s : List Char) : List Char :=
  match findLastAnchored (normL s) with
  | some r => r
  | none => (findRun5 (normL s)).getD []

def digitsOnlyKey (s : String) : String := (digitsOnlyKeyL s.toList).asString

/-- Go v7 `digitsOnlyKey`: normalize, then only the `rxDigits` (`(\d{5,})`)
match — the first run of 5 or more digits anywhere — else the empty string. -/
def digitsOnlyKeyV7L (s : List Char) : List Char :=
  (findRun5 (normL s)).getD []

def digitsOnlyKeyV7 (s : String) : String := (digitsOnlyKeyV7L s.toList).asString

/-- Specification-side reading of the claim: the final maximal digit run of
the text, provided it has at least 5 digits ("the last run of 5 or more
consecutive digits anchored near the end"). -/
def lastAnchoredRunSpec (t : List Char) : Option (List Char) :=
  match (digitRuns t).getLast? with
  | some r => if 5 ≤ r.length then some r else none
  | none => none

/-- Specification-side reading of the fallback: the first maximal digit run
with at least 5 digits, anywhere in the text. -/
def firstRun5Spec (t : List Char) : Option (List Char) :=
  (digitRuns t).find? (fun r => decide (5 ≤ r.length))

/-- The claim's description of the unit-id extraction, assembled from the two
run selectors above. -/
def unitIdSpec (t : List Char) : List Char :=
  match lastAnchoredRunSpec t with
  | some r => r
  | none => (firstRun5Spec t).getD []

theorem digitRuns_nil : digitRuns [] = [] := by
  rw [digitRuns]

theorem digitRuns_cons_digit (c : Char) (cs : List Char) (hc : c.isDigit = true) :
    digitRuns (c :: cs) =
      ((c :: cs).takeWhile Char.isDigit) :: digitRuns ((c :: cs).dropWhile Char.isDigit) := by
  rw [digitRuns]
  rw [if_pos hc]

theorem digitRuns_cons_nondigit (c : Char) (cs : List Char) (hc : ¬ c.isDigit = true) :
    digitRuns (c :: cs) = digitRuns cs := by
  rw [digitRuns]
  rw [if_neg hc]

theorem findRun5_cons (c : Char) (cs : List Char) :
    findRun5 (c :: cs) =
      if c.isDigit = true ∧ 5 ≤ ((c :: cs).takeWhile Char.isDigit).length then
        some ((c :: cs).takeWhile Char.isDigit)
      else findRun5 cs := by
  rw [findRun5]

theorem findLastAnchored_cons (c : Char) (cs : List Char) :
    findLastAnchored (c :: cs) =
      if c.isDigit = true ∧ 5 ≤ ((c :: cs).takeWhile Char.isDigit).length ∧
          ((c :: cs).dropWhile Char.isDigit).all (fun d => !d.isDigit) = true then
        some ((c :: cs).takeWhile Char.isDigit)
      else findLastAnchored cs := by
  rw [findLastAnchored]

theorem digitRuns_nil_iff (t : List Char) :
    digitRuns t = [] ↔ t.all (fun d => !d.isDigit) = true := by
  induction t using digitRuns.induct with
  | case1 => simp [digitRuns_nil]
  | case2 c cs hc ih =>
      rw [digitRuns_cons_digit c cs hc]
      simp [hc]
  | case3 c cs hc ih =>
      rw [digitRuns_cons_nondigit c cs hc, ih]
      simp only [List.all_cons, Bool.and_eq_true, Bool.not_eq_true']
      constructor
      · intro h
        exact ⟨Bool.not_eq_true _ ▸ Bool.eq_false_iff.mpr hc, h⟩
      · intro h
        exact h.2

theorem takeWhile_cons_digit (c : Char) (cs : List Char) (hc : c.isDigit = true) :
    (c :: cs).takeWhile Char.isDigit = c :: cs.takeWhile Char.isDigit := by
  simp [List.takeWhile_cons, hc]

theorem dropWhile_cons_digit (c : Char) (cs : List Char) (hc : c.isDigit = true) :
    (c :: cs).dropWhile Char.isDigit = cs.dropWhile Char.isDigit := by
  simp [List.dropWhile_cons, hc]

theorem dropWhile_cons_nondigit (c : Char) (cs : List Char) (hc : ¬ c.isDigit = true) :
    (c :: cs).dropWhile Char.isDigit = c :: cs := by
  simp only [List.dropWhile_cons]
  rw [if_neg hc]

theorem findRun5_skip (t : List Char) (h : (t.takeWhile Char.isDigit).length < 5) :
    findRun5 t = findRun5 (t.dropWhile Char.isDigit) := by
  induction t with
  | nil => rfl
  | cons c cs ih =>
      by_cases hc : c.isDigit = true
      · have htk := takeWhile_cons_digit c cs hc
        have hdw := dropWhile_cons_digit c cs hc
        rw [findRun5_cons, if_neg (by intro hcontra; omega), hdw]
        rw [htk, List.length_cons] at h
        have hlt : (cs.takeWhile Char.isDigit).length < 5 := by omega
        by_cases hcs : cs = []
        · subst hcs; rfl
        · rcases cs with _ | ⟨d, ds⟩
          · rfl
          · by_cases hd : d.isDigit = true
            · exact ih hlt
            · rw [dropWhile_cons_nondigit d ds hd]
      · rw [dropWhile_cons_nondigit c cs hc]

theorem findRun5_eq_spec (t : List Char) : findRun5 t = firstRun5Spec t := by
  induction t using digitRuns.induct with
  | case1 => simp [findRun5, firstRun5Spec, digitRuns_nil]
  | case2 c cs hc ih =>
      unfold firstRun5Spec at ih ⊢
      rw [digitRuns_cons_digit c cs hc, List.find?_cons]
      by_cases h5 : 5 ≤ ((c :: cs).takeWhile Char.isDigit).length
      · rw [findRun5_cons, if_pos ⟨hc, h5⟩]
        simp [h5]
      · rw [findRun5_skip (c :: cs) (by omega), ih]
        simp [h5]
  | case3 c cs hc ih =>
      unfold firstRun5Spec at ih ⊢
      rw [digitRuns_cons_nondigit c cs hc, ← ih, findRun5_cons,
        if_neg (by intro hcontra; exact hc hcontra.1)]

theorem findLastAnchored_skip (t : List Char)
    (h : ¬ (5 ≤ (t.takeWhile Char.isDigit).length ∧
          (t.dropWhile Char.isDigit).all (fun d => !d.isDigit) = true)) :
    findLastAnchored t = findLastAnchored (t.dropWhile Char.isDigit) := by
  induction t with
  | nil => rfl
  | cons c cs ih =>
      by_cases hc : c.isDigit = true
      · have htk := takeWhile_cons_digit c cs hc
        have hdw := dropWhile_cons_digit c cs hc
        rw [findLastAnchored_cons,
          if_neg (by intro hcontra; exact h ⟨hcontra.2.1, hcontra.2.2⟩), hdw]
        apply ih
        intro hcontra
        apply h
        rw [htk, hdw]
        refine ⟨by simp only [List.length_cons]; omega, hcontra.2⟩
      · rw [dropWhile_cons_nondigit c cs hc]

theorem findLastAnchored_eq_spec (t : List Char) :
    findLastAnchored t = lastAnchoredRunSpec t := by
  induction t using digitRuns.induct with
  | case1 => simp [findLastAnchored, lastAnchoredRunSpec, digitRuns_nil]
  | case2 c cs hc ih =>
      by_cases hcond : 5 ≤ ((c :: cs).takeWhile Char.isDigit).length ∧
          ((c :: cs).dropWhile Char.isDigit).all (fun d => !d.isDigit) = true
      · rw [findLastAnchored_cons, if_pos ⟨hc, hcond.1, hcond.2⟩]
        have hrest : digitRuns ((c :: cs).dropWhile Char.isDigit) = [] :=
          (digitRuns_nil_iff _).mpr hcond.2
        unfold lastAnchoredRunSpec
        rw [digitRuns_cons_digit c cs hc, hrest]
        simp [hcond.1]
      · rw [findLastAnchored_skip (c :: cs) hcond, ih]
        unfold lastAnchoredRunSpec
        rw [digitRuns_cons_digit c cs hc]
        rcases hrest : digitRuns ((c :: cs).dropWhile Char.isDigit) with _ | ⟨r0, rs⟩
        · have hall : ((c :: cs).dropWhile Char.isDigit).all (fun d => !d.isDigit) = true :=
            (digitRuns_nil_iff _).mp hrest
          have hlen : ¬ 5 ≤ ((c :: cs).takeWhile Char.isDigit).length := by
            intro hcontra; exact hcond ⟨hcontra, hall⟩
          simp [hlen]
        · simp [List.getLast?_cons_cons]
  | case3 c cs hc ih =>
      unfold lastAnchoredRunSpec at ih ⊢
      rw [digitRuns_cons_nondigit c cs hc, ← ih, findLastAnchored_cons,
        if_neg (by intro hcontra; exact hc hcontra.1)]

/-- C2 (amended). The v16 `digitsOnlyKey` returns the last maximal digit run
of the normalized text when that run has at least 5 digits and no digit
follows it, else the first run of 5 or more digits anywhere, else the empty
string; the v7 revision's `digitsOnlyKey` instead always returns the first
run of 5 or more digits of the normalized text (or the empty string),
with no preference for the run anchored at the end. -/
theorem unit_id_extraction_amended (s : List Char) :
    digitsOnlyKeyL s = unitIdSpec (normL s) ∧
    digitsOnlyKeyV7L s = (firstRun5Spec (normL s)).getD [] := by
  constructor
  · unfold digitsOnlyKeyL unitIdSpec
    rw [findLastAnchored_eq_spec]
    cases lastAnchoredRunSpec (normL s) <;> simp [findRun5_eq_spec]
  · unfold digitsOnlyKeyV7L
    rw [findRun5_eq_spec]

/-- C2 (counterexample). On "11111 x 22222" the last anchored run of 5+
digits of the normalized text is "22222", but the v7 revision's
unit-identifier extraction returns "11111" — the claimed preference for the
anchored-at-the-end run does not hold for the v7 extraction. -/
theorem unit_id_v7_counterexample :
    digitsOnlyKeyV7 "11111 x 22222" = "11111" ∧
    lastAnchoredRunSpec (normL ("11111 x 22222".toList)) = some ("22222".toList) ∧
    digitsOnlyKey "11111 x 22222" = "22222" := by
  refine ⟨by decide, ?_, by decide⟩
  rw [← findLastAnchored_eq_spec]
  decide

/- ===================== Case mapping and substring search ===================== -/

/-- ASCII lower-casing of one character.  Models Go `strings.ToLower` /
the case-insensitive letter comparison of the `time` package on the ASCII
range; the keywords and tokens compared in this program are all ASCII. -/
def lowerChar (c : Char) : Char :=
  if 'A' ≤ c ∧ c ≤ 'Z' then Char.ofNat (c.toNat + 32) else c

/-- ASCII upper-casing of one character (models Go `strings.ToUpper`). -/
def upperChar (c : Char) : Char :=
  if 'a' ≤ c ∧ c ≤ 'z' then Char.ofNat (c.toNat - 32) else c

def lowerL (s : List Char) : List Char := s.map lowerChar

def upperL (s : List Char) : List Char := s.map upperChar

def lowerS (s : String) : String := (lowerL s.toList).asString

def upperS (s : String) : String := (upperL s.toList).asString

/-- Go `strings.ToUpper(strings.TrimSpace(s))`, the canonicalization used for
zones, genders, categories and religions. -/
def upperTrim (s : String) : String := (upperL (trimL s.toList)).asString

/-- Does the second list start with the first? -/
def prefixOfL : List Char → List Char → Bool
  | [], _ => true
  | _ :: _, [] => false
  | c :: cs, d :: ds => c = d && prefixOfL cs ds

/-- Go `strings.Contains(hay, needle)`: the needle occurs as a contiguous
substring of the haystack. -/
def containsSub (hay needle : List Char) : Bool :=
  match hay with
  | [] => prefixOfL needle []
  | _ :: cs => prefixOfL needle hay || containsSub cs needle

def containsS (hay needle : String) : Bool := containsSub hay.toList needle.toList

/- ===================== Person records ===================== -/

/-- The v16 `Emp` record, restricted to the fields the reconciliation and
aggregation core reads (the remaining fields of the Go struct are
presentation pass-through text never aggregated). -/
structure Emp where
  id : String
  name : String
  designation : String
  dob : String
  gender : String
  zone : String
  schoolID : String
  schoolName : String
  selectionCategory : String
  maritalStatus : String
  religion : String
  age : Int
  email : String
  doj : String
  deriving DecidableEq, Repr

/- ===================== Staffing classification (C10, C6) ===================== -/

/-- Output of the per-school staffing classification loop. -/
structure StaffFlags where
  actualT : Nat
  hasP : Bool
  hasSE : Bool
  totalSt : Nat
  deriving DecidableEq, Repr

def emptyFlags : StaffFlags := ⟨0, false, false, 0⟩

/-- One iteration of the v7 classification loop (mcd_dashboard_v7.go,
`main`): the keyword tests are chained with `else if`, so a designation
containing "teacher" is never tested for "principal" or "special educator",
and one containing "principal" is never tested for "special educator". -/
def classStepV7 (sid : String) (f : StaffFlags) (e : Emp) : StaffFlags :=
  if e.schoolID = sid then
    let f := { f with totalSt := f.totalSt + 1 }
    let desLow := lowerS e.designation
    if containsS desLow "teacher" then { f with actualT := f.actualT + 1 }
    else if containsS desLow "principal" then { f with hasP := true }
    else if containsS desLow "special educator" then { f with hasSE := true }
    else f
  else f

/-- One iteration of the v16 classification loop (`handleAPISchool`): the
three keyword tests are independent `if`s. -/
def classStepV16 (sid : String) (f : StaffFlags) (e : Emp) : StaffFlags :=
  if e.schoolID = sid then
    let f := { f with totalSt := f.totalSt + 1 }
    let d := lowerS e.designation
    let f := if containsS d "teacher" then { f with actualT := f.actualT + 1 } else f
    let f := if containsS d "principal" then { f with hasP := true } else f
    if containsS d "special educator" then { f with hasSE := true } else f
  else f

def classifyV7 (emps : List Emp) (sid : String) : StaffFlags :=
  emps.foldl (classStepV7 sid) emptyFlags

def classifyV16 (emps : List Emp) (sid : String) : StaffFlags :=
  emps.foldl (classStepV16 sid) emptyFlags

/-- Is this employee posted at the given school? (the `e.SchoolID == sid`
test of both loops.) -/
def atSchool (sid : String) (e : Emp) : Bool := e.schoolID = sid

def isTeacher (e : Emp) : Bool := containsS (lowerS e.designation) "teacher"

def isPrincipalKw (e : Emp) : Bool := containsS (lowerS e.designation) "principal"

def isSpecialEduKw (e : Emp) : Bool := containsS (lowerS e.designation) "special educator"

theorem classifyV16_foldl (sid : String) (l : List Emp) : ∀ f : StaffFlags,
    l.foldl (classStepV16 sid) f =
      ⟨f.actualT + l.countP (fun e => atSchool sid e && isTeacher e),
       f.hasP || l.any (fun e => atSchool sid e && isPrincipalKw e),
       f.hasSE || l.any (fun e => atSchool sid e && isSpecialEduKw e),
       f.totalSt + l.countP (atSchool sid)⟩ := by
  induction l with
  | nil =>
      intro f
      cases f
      simp
  | cons e es ih =>
      intro f
      rw [List.foldl_cons, ih]
      unfold classStepV16 atSchool isTeacher isPrincipalKw isSpecialEduKw
      by_cases hs : e.schoolID = sid <;>
        by_cases ht : containsS (lowerS e.designation) "teacher" = true <;>
        by_cases hp : containsS (lowerS e.designation) "principal" = true <;>
        by_cases hse : containsS (lowerS e.designation) "special educator" = true <;>
        simp [hs, ht, hp, hse, List.countP_cons, atSchool, isTeacher, isPrincipalKw,
          isSpecialEduKw] <;>
        omega

theorem classifyV7_foldl (sid : String) (l : List Emp) : ∀ f : StaffFlags,
    l.foldl (classStepV7 sid) f =
      ⟨f.actualT + l.countP (fun e => atSchool sid e && isTeacher e),
       f.hasP || l.any (fun e => atSchool sid e && !isTeacher e && isPrincipalKw e),
       f.hasSE || l.any (fun e =>
         atSchool sid e && !isTeacher e && !isPrincipalKw e && isSpecialEduKw e),
       f.totalSt + l.countP (atSchool sid)⟩ := by
  induction l with
  | nil =>
      intro f
      cases f
      simp
  | cons e es ih =>
      intro f
      rw [List.foldl_cons, ih]
      unfold classStepV7 atSchool isTeacher isPrincipalKw isSpecialEduKw
      by_cases hs : e.schoolID = sid <;>
        by_cases ht : containsS (lowerS e.designation) "teacher" = true <;>
        by_cases hp : containsS (lowerS e.designation) "principal" = true <;>
        by_cases hse : containsS (lowerS e.designation) "special educator" = true <;>
        simp [hs, ht, hp, hse, List.countP_cons, atSchool, isTeacher, isPrincipalKw,
          isSpecialEduKw] <;>
        omega

theorem any_congr_mem {α : Type} (p q : α → Bool) :
    ∀ l : List α, (∀ a ∈ l, p a = q a) → l.any p = l.any q
  | [], _ => rfl
  | a :: l, h => by
      have ha := h a (by simp)
      have hl := any_congr_mem p q l (fun b hb => h b (by simp [hb]))
      simp [List.any_cons, ha, hl]

/-- C10 (amended). The v7 and v16 per-school classification loops always
agree on the actual-teacher count and on the total staff count, but not on
the presence flags: v16 raises has-principal whenever some designation at
the school contains "principal", while v7 (whose keyword tests are an
`else if` chain) only does so when that designation does not also contain
"teacher" (and likewise for has-special-educator, additionally masked by
"principal").  The two loops agree on the flags whenever no designation at
the school mixes the keywords. -/
theorem classify_equiv_amended (emps : List Emp) (sid : String) :
    (classifyV7 emps sid).actualT = (classifyV16 emps sid).actualT ∧
    (classifyV7 emps sid).totalSt = (classifyV16 emps sid).totalSt ∧
    ((∀ e ∈ emps, atSchool sid e = true →
        (isTeacher e = true → isPrincipalKw e = false ∧ isSpecialEduKw e = false) ∧
        (isPrincipalKw e = true → isSpecialEduKw e = false)) →
      classifyV7 emps sid = classifyV16 emps sid) := by
  unfold classifyV7 classifyV16
  rw [classifyV7_foldl sid emps emptyFlags, classifyV16_foldl sid emps emptyFlags]
  refine ⟨rfl, rfl, ?_⟩
  intro h
  have hP : emps.any (fun e => atSchool sid e && !isTeacher e && isPrincipalKw e) =
      emps.any (fun e => atSchool sid e && isPrincipalKw e) := by
    apply any_congr_mem
    intro e he
    by_cases ha : atSchool sid e = true
    · by_cases ht : isTeacher e = true
      · have := ((h e he) ha).1 ht
        simp [ha, ht, this.1]
      · simp [ha, ht]
    · simp [Bool.eq_false_iff.mpr ha]
  have hSE : emps.any (fun e =>
        atSchool sid e && !isTeacher e && !isPrincipalKw e && isSpecialEduKw e) =
      emps.any (fun e => atSchool sid e && isSpecialEduKw e) := by
    apply any_congr_mem
    intro e he
    by_cases ha : atSchool sid e = true
    · by_cases ht : isTeacher e = true
      · have := ((h e he) ha).1 ht
        simp [ha, ht, this.2]
      · by_cases hp : isPrincipalKw e = true
        · have := ((h e he) ha).2 hp
          simp [ha, ht, hp, this]
        · simp [ha, ht, hp]
    · simp [Bool.eq_false_iff.mpr ha]
  rw [hP, hSE]

/-- C10 (counterexample). A single employee whose designation is
"Principal Teacher" is counted as a teacher by both revisions, but only the
v16 loop raises the has-principal flag: the v7 `else if` chain skips the
"principal" test once "teacher" matched, so the two loops are not
equivalent. -/
theorem classify_equiv_counterexample :
    (classifyV7 [⟨"1", "A B", "Principal Teacher", "", "M", "WEST", "11111", "S",
        "", "", "", 0, "", ""⟩] "11111").hasP = false ∧
    (classifyV16 [⟨"1", "A B", "Principal Teacher", "", "M", "WEST", "11111", "S",
        "", "", "", 0, "", ""⟩] "11111").hasP = true ∧
    (classifyV7 [⟨"1", "A B", "Principal Teacher", "", "M", "WEST", "11111", "S",
        "", "", "", 0, "", ""⟩] "11111").actualT =
      (classifyV16 [⟨"1", "A B", "Principal Teacher", "", "M", "WEST", "11111", "S",
        "", "", "", 0, "", ""⟩] "11111").actualT := by
  refine ⟨by decide, by decide, by decide⟩

/-- C10 witness: on a roster with an unmixed teacher and an unmixed
principal the hypothesis of the amended claim holds and the two loops agree
completely. -/
theorem classify_equiv_amended_witness :
    (∀ e ∈ [(⟨"1", "A", "Teacher (Primary)", "", "M", "WEST", "33333", "S",
          "", "", "", 0, "", ""⟩ : Emp),
        ⟨"2", "B", "Principal", "", "F", "WEST", "33333", "S",
          "", "", "", 0, "", ""⟩], atSchool "33333" e = true →
        (isTeacher e = true → isPrincipalKw e = false ∧ isSpecialEduKw e = false) ∧
        (isPrincipalKw e = true → isSpecialEduKw e = false)) ∧
    classifyV7 [(⟨"1", "A", "Teacher (Primary)", "", "M", "WEST", "33333", "S",
          "", "", "", 0, "", ""⟩ : Emp),
        ⟨"2", "B", "Principal", "", "F", "WEST", "33333", "S",
          "", "", "", 0, "", ""⟩] "33333" =
      classifyV16 [(⟨"1", "A", "Teacher (Primary)", "", "M", "WEST", "33333", "S",
          "", "", "", 0, "", ""⟩ : Emp),
        ⟨"2", "B", "Principal", "", "F", "WEST", "33333", "S",
          "", "", "", 0, "", ""⟩] "33333" :=
  ⟨by decide, (classify_equiv_amended _ "33333").2.2 (by decide)⟩

/- ===================== Staffing Ratio Deriver (C6) ===================== -/

/-- Go `int(math.Ceil(float64(x) / 40.0))`.  Since `Int./` is Euclidean
(floor) division by a positive constant, `(x + 39) / 40` is exactly the
ceiling of `x / 40`; the float computation is exact for every `|x| < 2^53`,
which covers every value `atoiSafe` can produce from the summary sheet. -/
def ceil40 (x : Int) : Int := (x + 39) / 40

theorem ceil40_eq_ceil (x : Int) : ceil40 x = ⌈(x : ℚ) / 40⌉ := by
  have h40 : (0 : ℚ) < 40 := by norm_num
  rw [eq_comm, Int.ceil_eq_iff]
  constructor
  · rw [lt_div_iff₀ h40]
    have h : (ceil40 x - 1) * 40 < x := by unfold ceil40; omega
    exact_mod_cast h
  · rw [div_le_iff₀ h40]
    have h : x ≤ ceil40 x * 40 := by unfold ceil40; omega
    exact_mod_cast h

/-- The per-unit staffing record (`SchoolStaff` in the Go source); the
`float64` load ratio is modelled as a rational. -/
structure StaffOut where
  neededTeachers : Int
  actualTeachers : Int
  surplusVacancy : Int
  hasPrincipal : Bool
  hasSpecialEdu : Bool
  totalStaff : Nat
  ratioVal : ℚ

/-- The v16 staffing derivation (`handleAPISchool`): classify the roster,
take `neededT = int(math.Ceil(float64(MaxPresent)/40.0))` floored at zero,
`sv = actualT - neededT`, and `ratio = MaxPresent/actualT` when
`actualT > 0`, else `0` without evaluating the division. -/
def deriveStaffV16 (emps : List Emp) (sid : String) (maxPresent : Int) : StaffOut :=
  let c := classifyV16 emps sid
  let n0 := ceil40 maxPresent
  let n := if n0 < 0 then 0 else n0
  { neededTeachers := n
    actualTeachers := (c.actualT : Int)
    surplusVacancy := (c.actualT : Int) - n
    hasPrincipal := c.hasP
    hasSpecialEdu := c.hasSE
    totalStaff := c.totalSt
    ratioVal := if 0 < c.actualT then (maxPresent : ℚ) / (c.actualT : ℚ) else 0 }

/-- The v7 staffing derivation (`main`): identical except that
`neededT` is not floored at zero. -/
def deriveStaffV7 (emps : List Emp) (sid : String) (maxPresent : Int) : StaffOut :=
  let c := classifyV7 emps sid
  let n := ceil40 maxPresent
  { neededTeachers := n
    actualTeachers := (c.actualT : Int)
    surplusVacancy := (c.actualT : Int) - n
    hasPrincipal := c.hasP
    hasSpecialEdu := c.hasSE
    totalStaff := c.totalSt
    ratioVal := if 0 < c.actualT then (maxPresent : ℚ) / (c.actualT : ℚ) else 0 }

/-- C6 (amended). For the v16 derivation the needed-teacher count is the
ceiling of capacity / 40 floored at zero, the surplus is actual minus
needed, the actual count is the number of roster records at the unit whose
designation contains "teacher", and the load ratio is capacity / actual when
the actual count is positive and exactly 0 when it is zero (the division
branch is not taken).  The v7 derivation computes the plain ceiling with no
floor at zero, so for a negative capacity counter below -40 its needed
count is negative. -/
theorem staffing_derivation_amended (emps : List Emp) (sid : String) (mp : Int) :
    (deriveStaffV16 emps sid mp).neededTeachers = max 0 ⌈(mp : ℚ) / 40⌉ ∧
    (deriveStaffV16 emps sid mp).surplusVacancy =
      (deriveStaffV16 emps sid mp).actualTeachers -
        (deriveStaffV16 emps sid mp).neededTeachers ∧
    (deriveStaffV16 emps sid mp).actualTeachers =
      (emps.countP (fun e => atSchool sid e && isTeacher e) : Int) ∧
    ((classifyV16 emps sid).actualT = 0 → (deriveStaffV16 emps sid mp).ratioVal = 0) ∧
    (0 < (classifyV16 emps sid).actualT →
      (deriveStaffV16 emps sid mp).ratioVal =
        (mp : ℚ) / ((classifyV16 emps sid).actualT : ℚ)) ∧
    (deriveStaffV7 emps sid mp).neededTeachers = ⌈(mp : ℚ) / 40⌉ := by
  have hclamp : (if ceil40 mp < 0 then 0 else ceil40 mp) = max 0 ⌈(mp : ℚ) / 40⌉ := by
    rw [← ceil40_eq_ceil]
    rcases lt_or_le (ceil40 mp) 0 with h | h
    · simp [if_pos h, max_eq_left h.le]
    · simp [if_neg (not_lt.mpr h), max_eq_right h]
  refine ⟨hclamp, rfl, ?_, ?_, ?_, ceil40_eq_ceil mp⟩
  · show ((classifyV16 emps sid).actualT : Int) = _
    unfold classifyV16
    rw [classifyV16_foldl sid emps emptyFlags]
    simp [emptyFlags]
  · intro h
    show (if 0 < (classifyV16 emps sid).actualT then _ else (0 : ℚ)) = 0
    rw [if_neg (by omega)]
  · intro h
    show (if 0 < (classifyV16 emps sid).actualT then
      (mp : ℚ) / ((classifyV16 emps sid).actualT : ℚ) else (0 : ℚ)) = _
    rw [if_pos h]

/-- C6 (counterexample). With capacity counter -45 (reachable since
`atoiSafe` parses negative numerals) the v7 derivation yields a needed
count of -1: the v7 revision does not floor the needed count at zero. -/
theorem staffing_floor_counterexample :
    (deriveStaffV7 [] "S" (-45)).neededTeachers = -1 ∧
    (deriveStaffV7 [] "S" (-45)).neededTeachers < 0 := by
  refine ⟨by decide, by decide⟩

/-- C6 witness: concrete instances discharging both ratio-branch
hypotheses of the amended claim (one teacher present, and nobody present). -/
theorem staffing_derivation_amended_witness :
    (0 < (classifyV16 [(⟨"1", "A", "Teacher", "", "M", "WEST", "44444", "S",
        "", "", "", 0, "", ""⟩ : Emp)] "44444").actualT ∧
      (deriveStaffV16 [(⟨"1", "A", "Teacher", "", "M", "WEST", "44444", "S",
        "", "", "", 0, "", ""⟩ : Emp)] "44444" 100).ratioVal =
        (100 : ℚ) / ((classifyV16 [(⟨"1", "A", "Teacher", "", "M", "WEST", "44444", "S",
        "", "", "", 0, "", ""⟩ : Emp)] "44444").actualT : ℚ)) ∧
    ((classifyV16 [] "44444").actualT = 0 ∧
      (deriveStaffV16 [] "44444" 100).ratioVal = 0) :=
  ⟨⟨by decide, (staffing_derivation_amended _ "44444" 100).2.2.2.2.1 (by decide)⟩,
   ⟨by decide, (staffing_derivation_amended [] "44444" 100).2.2.2.1 (by decide)⟩⟩

/- ===================== Ranked Summary Builder (C9) ===================== -/

/-- The Go `less` comparator of `toSorted` (`sort.Slice`): descending by
count, ties broken by ascending byte-wise key order (UTF-8 byte order, which
is code-point order, i.e. the order on `List Char`), made non-strict so it
can drive the sort.  Stated on `(key, count)` pairs with keys as character
lists. -/
def pairLE (a b : List Char × Nat) : Prop := b.2 < a.2 ∨ (a.2 = b.2 ∧ a.1 ≤ b.1)

instance : DecidableRel pairLE := fun a b =>
  inferInstanceAs (Decidable (b.2 < a.2 ∨ (a.2 = b.2 ∧ a.1 ≤ b.1)))

instance : IsTotal (List Char × Nat) pairLE where
  total a b := by
    unfold pairLE
    rcases lt_trichotomy a.2 b.2 with h | h | h
    · exact Or.inr (Or.inl h)
    · rcases le_total a.1 b.1 with h1 | h1
      · exact Or.inl (Or.inr ⟨h, h1⟩)
      · exact Or.inr (Or.inr ⟨h.symm, h1⟩)
    · exact Or.inl (Or.inl h)

instance : IsTrans (List Char × Nat) pairLE where
  trans a b c hab hbc := by
    unfold pairLE at *
    rcases hab with h1 | h1 <;> rcases hbc with h2 | h2
    · exact Or.inl (by omega)
    · exact Or.inl (by omega)
    · exact Or.inl (by omega)
    · exact Or.inr ⟨by omega, h1.2.trans h2.2⟩

/-- Go `toSorted`: sort the (key, count) pairs of a counter map with the
comparator above.  The Go map's entries have pairwise-distinct keys, on which
the comparator is a strict total order, so the (unstable) `sort.Slice`
produces exactly this uniquely determined sorted arrangement. -/
def toSorted (m : List (List Char × Nat)) : List (List Char × Nat) :=
  List.insertionSort pairLE m

/-- Go `take(toSorted(m), n)`: `take` clamps `n` to the length, exactly as
`List.take` does. -/
def topNPairs (m : List (List Char × Nat)) (n : Nat) : List (List Char × Nat) :=
  (toSorted m).take n

/-- C9.  With pairwise-distinct keys (true of any Go map), the top-N ranking
is a prefix of a permutation of the counter entries, sorted strictly
descending by count with ties broken by ascending lexicographic key order,
and it has exactly min(n, number of distinct keys) entries. -/
theorem topn_ranking_spec (m : List (List Char × Nat)) (n : Nat)
    (h : (m.map Prod.fst).Nodup) :
    topNPairs m n <+: toSorted m ∧
    List.Perm (toSorted m) m ∧
    (topNPairs m n).length = min n m.length ∧
    List.Pairwise (fun a b => b.2 < a.2 ∨ (a.2 = b.2 ∧ a.1 < b.1)) (topNPairs m n) := by
  have hperm : List.Perm (toSorted m) m := List.perm_insertionSort pairLE m
  refine ⟨List.take_prefix n _, hperm, ?_, ?_⟩
  · unfold topNPairs
    rw [List.length_take, hperm.length_eq]
  · have hsorted : List.Pairwise pairLE (toSorted m) := List.sorted_insertionSort pairLE m
    have hnd : ((toSorted m).map Prod.fst).Nodup := ((hperm.map Prod.fst).nodup_iff).mpr h
    have hkeys : List.Pairwise (fun a b : List Char × Nat => a.1 ≠ b.1) (toSorted m) :=
      List.pairwise_map.mp hnd
    have hstrict : List.Pairwise
        (fun a b : List Char × Nat => b.2 < a.2 ∨ (a.2 = b.2 ∧ a.1 < b.1)) (toSorted m) := by
      refine (hsorted.and hkeys).imp ?_
      intro a b hab
      rcases hab with ⟨hle | ⟨he, hk⟩, hne⟩
      · exact Or.inl hle
      · exact Or.inr ⟨he, lt_of_le_of_ne hk hne⟩
    exact hstrict.sublist (List.take_sublist n _)

/-- C9 witness: the spec's own example — counts {B:5, A:5, C:3}, n = 2 —
has distinct keys, and the ranking returns [("A",5), ("B",5)]. -/
theorem topn_ranking_spec_witness :
    (([("B".toList, 5), ("A".toList, 5), ("C".toList, 3)].map Prod.fst).Nodup ∧
      topNPairs [("B".toList, 5), ("A".toList, 5), ("C".toList, 3)] 2 =
        [("A".toList, 5), ("B".toList, 5)]) ∧
    (topNPairs [("B".toList, 5), ("A".toList, 5), ("C".toList, 3)] 2 <+:
        toSorted [("B".toList, 5), ("A".toList, 5), ("C".toList, 3)] ∧
      List.Perm (toSorted [("B".toList, 5), ("A".toList, 5), ("C".toList, 3)])
        [("B".toList, 5), ("A".toList, 5), ("C".toList, 3)] ∧
      (topNPairs [("B".toList, 5), ("A".toList, 5), ("C".toList, 3)] 2).length =
        min 2 [("B".toList, 5), ("A".toList, 5), ("C".toList, 3)].length ∧
      List.Pairwise (fun a b => b.2 < a.2 ∨ (a.2 = b.2 ∧ a.1 < b.1))
        (topNPairs [("B".toList, 5), ("A".toList, 5), ("C".toList, 3)] 2)) :=
  ⟨⟨by decide, by decide⟩, topn_ranking_spec _ 2 (by decide)⟩

/- ===================== Flexible Date Parser (C7) ===================== -/

/-- A calendar date as Go's `time.Time` exposes it to this program
(`Year()`, `Month()`, `Day()`). -/
structure GoDate where
  year : Int
  month : Nat
  day : Nat
  deriving DecidableEq, Repr

def digitVal (c : Char) : Nat := c.toNat - 48

/-- Go layout "02"/"01": exactly two digits. -/
def readFixed2 : List Char → Option (Nat × List Char)
  | a :: b :: rest =>
      if a.isDigit ∧ b.isDigit then some (10 * digitVal a + digitVal b, rest) else none
  | _ => none

/-- Go layout "2": one digit, or two when the next character is a digit. -/
def readNum12 : List Char → Option (Nat × List Char)
  | [] => none
  | [a] => if a.isDigit then some (digitVal a, []) else none
  | a :: b :: rest =>
      if a.isDigit then
        if b.isDigit then some (10 * digitVal a + digitVal b, rest)
        else some (digitVal a, b :: rest)
      else none

/-- Go layout "2006": exactly four digits. -/
def readYear4 : List Char → Option (Nat × List Char)
  | a :: b :: c :: d :: rest =>
      if a.isDigit ∧ b.isDigit ∧ c.isDigit ∧ d.isDigit then
        some (1000 * digitVal a + 100 * digitVal b + 10 * digitVal c + digitVal d, rest)
      else none
  | _ => none

def expectSep (c : Char) : List Char → Option (List Char)
  | d :: rest => if d = c then some rest else none
  | [] => none

/-- Case-insensitive prefix strip, as the Go `time` package's `match`
compares month names (ASCII letters compare case-insensitively). -/
def ciPrefixStrip : List Char → List Char → Option (List Char)
  | [], s => some s
  | _ :: _, [] => none
  | n :: ns, c :: cs => if lowerChar n = lowerChar c then ciPrefixStrip ns cs else none

def abbrevMonths : List (String × Nat) :=
  [("Jan", 1), ("Feb", 2), ("Mar", 3), ("Apr", 4), ("May", 5), ("Jun", 6),
   ("Jul", 7), ("Aug", 8), ("Sep", 9), ("Oct", 10), ("Nov", 11), ("Dec", 12)]

def longMonths : List (String × Nat) :=
  [("January", 1), ("February", 2), ("March", 3), ("April", 4), ("May", 5),
   ("June", 6), ("July", 7), ("August", 8), ("September", 9), ("October", 10),
   ("November", 11), ("December", 12)]

def readMonthName (names : List (String × Nat)) (s : List Char) : Option (Nat × List Char) :=
  match names with
  | [] => none
  | (nm, idx) :: rest =>
      match ciPrefixStrip nm.toList s with
      | some r => some (idx, r)
      | none => readMonthName rest s

/-- Go `isLeap` (time package). -/
def isLeap (y : Nat) : Bool := y % 4 = 0 && (y % 100 ≠ 0 || y % 400 = 0)

/-- Go `daysIn(m, year)` (time package), used by `time.Parse` to validate
the day of the month. -/
def daysInMonth (m y : Nat) : Nat :=
  if m = 2 then (if isLeap y then 29 else 28)
  else if m = 4 ∨ m = 6 ∨ m = 9 ∨ m = 11 then 30
  else 31

inductive MonthStyle where
  | abbrev3
  | twoDigit
  | fullName
  deriving DecidableEq

/-- One layout of `parseDMYFlexible`'s format list: a day field ("02" fixed
or "2" flexible), a separator, a month field ("Jan", "01" or "January"),
the separator again, and a four-digit year. -/
structure FmtSpec where
  dayFixed : Bool
  sep : Char
  mstyle : MonthStyle

/-- The format list of `parseDMYFlexible` (v16), in source order:
"02/Jan/2006", "2/Jan/2006", "02-Jan-2006", "2-Jan-2006",
"02/01/2006", "2/01/2006", "02/January/2006", "2/January/2006". -/
def fmtList : List FmtSpec :=
  [⟨true, '/', .abbrev3⟩, ⟨false, '/', .abbrev3⟩,
   ⟨true, '-', .abbrev3⟩, ⟨false, '-', .abbrev3⟩,
   ⟨true, '/', .twoDigit⟩, ⟨false, '/', .twoDigit⟩,
   ⟨true, '/', .fullName⟩, ⟨false, '/', .fullName⟩]

/-- Go `time.Parse(layout, value)` for one layout of the family above:
parse the three fields and both separators, require the value to be fully
consumed, and validate the month and day ranges (with leap years), as the
time package does before building the `time.Time`. -/
def parseFmt (f : FmtSpec) (s : List Char) : Option GoDate := do
  let (d, r1) ← if f.dayFixed then readFixed2 s else readNum12 s
  let r2 ← expectSep f.sep r1
  let (m, r3) ←
    match f.mstyle with
    | .abbrev3 => readMonthName abbrevMonths r2
    | .twoDigit => readFixed2 r2
    | .fullName => readMonthName longMonths r2
  let r4 ← expectSep f.sep r3
  let (y, r5) ← readYear4 r4
  if r5 = [] ∧ 1 ≤ m ∧ m ≤ 12 ∧ 1 ≤ d ∧ d ≤ daysInMonth m y then
    some ⟨(y : Int), m, d⟩
  else none

def tryFormats (s : List Char) : List FmtSpec → Option GoDate
  | [] => none
  | f :: fs =>
      match parseFmt f s with
      | some d => some d
      | none => tryFormats s fs

/-- The middle-part capitalization step of `parseDMYFlexible`: when the text
splits on '/' into exactly three parts and the middle part is longer than
two characters and not purely numeric, replace it by
`ToUpper(ToUpper(first) + ToLower(rest))` (which is its upper-casing —
month-name matching is case-insensitive anyway). -/
def capMiddle (t : List Char) : List Char :=
  match t.splitOn '/' with
  | [a, b, c] =>
      if 2 < b.length ∧ ¬ (b ≠ [] ∧ b.all Char.isDigit) then
        a ++ '/' :: upperL (upperL (b.take 1) ++ lowerL (b.drop 1)) ++ '/' :: c
      else t
  | _ => t

/-- Go v16 `parseDMYFlexible`: trim, fail on empty input, normalize the
middle part's case, then try the fixed format list in order and return the
first success. -/
def parseDMYFlexible (s : String) : Option GoDate :=
  let t := trimL s.toList
  if t = [] then none
  else tryFormats (capMiddle t) fmtList

/-- Go v16 `ageFromDOB`, with `time.Now()` passed in as an explicit date:
0 on parse failure, else current year minus birth year, decremented when
the birthday has not yet occurred this year, clamped at 0. -/
def ageFromDOB (dob : String) (now : GoDate) : Int :=
  match parseDMYFlexible dob with
  | none => 0
  | some d =>
      let age := now.year - d.year
      let age2 :=
        if now.month < d.month ∨ (now.month = d.month ∧ now.day < d.day) then age - 1
        else age
      if age2 < 0 then 0 else age2

/-- C7.  For every date-of-birth string: if `parseDMYFlexible` fails the
computed age is 0; otherwise the age is the current year minus the birth
year, decremented by one exactly when the current month/day precedes the
birth month/day, and clamped to a minimum of 0. -/
theorem age_from_dob_spec (dob : String) (now : GoDate) :
    (parseDMYFlexible dob = none → ageFromDOB dob now = 0) ∧
    (∀ d, parseDMYFlexible dob = some d →
      ageFromDOB dob now =
        max 0 (now.year - d.year -
          (if now.month < d.month ∨ (now.month = d.month ∧ now.day < d.day) then 1 else 0))) := by
  constructor
  · intro h
    unfold ageFromDOB
    rw [h]
  · intro d h
    unfold ageFromDOB
    rw [h]
    dsimp only
    by_cases hb : now.month < d.month ∨ (now.month = d.month ∧ now.day < d.day)
    · rw [if_pos hb, if_pos hb]
      rcases lt_or_le (now.year - d.year - 1) 0 with hneg | hpos
      · rw [if_pos hneg]
        omega
      · rw [if_neg (not_lt.mpr hpos)]
        omega
    · rw [if_neg hb, if_neg hb]
      rcases lt_or_le (now.year - d.year) 0 with hneg | hpos
      · rw [if_pos hneg]
        omega
      · rw [if_neg (not_lt.mpr hpos)]
        omega

/-- C7 witness: "31/2/1990" has no matching format (day out of range for
February) so the age is 0, while "15/Jan/1990" parses and, evaluated at
2026-10-11, gives age 36 = max 0 (2026 - 1990 - 0). -/
theorem age_from_dob_spec_witness :
    (parseDMYFlexible "31/2/1990" = none ∧ ageFromDOB "31/2/1990" ⟨2026, 10, 11⟩ = 0) ∧
    (parseDMYFlexible "15/Jan/1990" = some ⟨1990, 1, 15⟩ ∧
      ageFromDOB "15/Jan/1990" ⟨2026, 10, 11⟩ =
        max 0 ((2026 : Int) - 1990 -
          (if (10 < 1 ∨ (10 = 1 ∧ 11 < 15) : Prop) then 1 else 0))) :=
  ⟨⟨by decide, (age_from_dob_spec "31/2/1990" ⟨2026, 10, 11⟩).1 (by decide)⟩,
   ⟨by decide, (age_from_dob_spec "15/Jan/1990" ⟨2026, 10, 11⟩).2 ⟨1990, 1, 15⟩ (by decide)⟩⟩

/- ===================== Derived-Field Cache (C4, C5) ===================== -/

/-- A row of the service-history source (Services.csv), restricted to the
fields the reconciliation core reads; each field is the already-normalized
result of the corresponding `get(r, sm, ...)` lookup. -/
structure SrvRow where
  empIDField : String
  doj : String
  cat : String
  marital : String
  apptDate : String
  promDate : String
  transDate : String
  deriving DecidableEq, Repr

/-- Go map assignment `m[k] = v`. -/
def updateMap {β : Type} (m : String → Option β) (k : String) (v : β) : String → Option β :=
  fun q => if q = k then some v else m q

def emptyMap : String → Option String := fun _ => none

/-- One iteration of the v7 DOJ rebuild loop: resolve the person id with
`stripDot0`, and record the date only when both the id and the date are
non-empty (later rows overwrite earlier ones). -/
def rebuildStep (m : String → Option String) (r : SrvRow) : String → Option String :=
  if stripDot0 r.empIDField ≠ "" ∧ r.doj ≠ "" then
    updateMap m (stripDot0 r.empIDField) r.doj
  else m

def rebuildDOJ (rows : List SrvRow) : String → Option String :=
  rows.foldl rebuildStep emptyMap

/-- Does this row contribute the given id to the rebuilt mapping? -/
def qualDOJ (id : String) (r : SrvRow) : Bool :=
  decide (stripDot0 r.empIDField = id) &&
    decide (stripDot0 r.empIDField ≠ "") && decide (r.doj ≠ "")

/-- Specification-side description of the rebuilt mapping: the date field of
the last row in source order whose resolved id is this (non-empty) id and
whose date field is non-empty. -/
def lastQualDOJ (rows : List SrvRow) (id : String) : Option String :=
  (rows.reverse.find? (qualDOJ id)).map SrvRow.doj

theorem rebuild_foldl (rows : List SrvRow) : ∀ (m : String → Option String) (id : String),
    (rows.foldl rebuildStep m) id =
      match rows.reverse.find? (qualDOJ id) with
      | some r => some r.doj
      | none => m id := by
  induction rows with
  | nil => intro m id; rfl
  | cons r rs ih =>
      intro m id
      rw [List.foldl_cons, ih]
      have happ : (r :: rs).reverse.find? (qualDOJ id) =
          ((rs.reverse.find? (qualDOJ id)).or ([r].find? (qualDOJ id))) := by
        rw [List.reverse_cons, List.find?_append]
      rw [happ]
      cases hf : rs.reverse.find? (qualDOJ id) with
      | some r0 => rfl
      | none =>
          show (rebuildStep m r) id =
            (match [r].find? (qualDOJ id) with
              | some r1 => some r1.doj
              | none => m id)
          by_cases hq : qualDOJ id r = true
          · have h123 : stripDot0 r.empIDField = id ∧
                stripDot0 r.empIDField ≠ "" ∧ r.doj ≠ "" := by
              have h := hq
              unfold qualDOJ at h
              simp only [Bool.and_eq_true, decide_eq_true_eq] at h
              exact ⟨h.1.1, h.1.2, h.2⟩
            rw [show [r].find? (qualDOJ id) = some r by simp [List.find?, hq]]
            unfold rebuildStep
            rw [if_pos ⟨h123.2.1, h123.2.2⟩]
            show (if id = stripDot0 r.empIDField then some r.doj else m id) = some r.doj
            rw [if_pos h123.1.symm]
          · have hq' : qualDOJ id r = false := Bool.eq_false_iff.mpr hq
            rw [show [r].find? (qualDOJ id) = none by simp [List.find?, hq']]
            unfold rebuildStep
            by_cases h23 : stripDot0 r.empIDField ≠ "" ∧ r.doj ≠ ""
            · rw [if_pos h23]
              have hne : ¬ (id = stripDot0 r.empIDField) := by
                intro he
                apply hq
                unfold qualDOJ
                subst he
                simp [h23.1, h23.2]
              show (if id = stripDot0 r.empIDField then some r.doj else m id) = m id
              rw [if_neg hne]
            · rw [if_neg h23]

inductive LoadResult where
  | fatalErr
  | okMap : (String → Option String) → LoadResult

/-- The v7 cache reuse path: `os.ReadFile` failure is a `log.Fatalf`;
on a successful read the code runs `json.Unmarshal(cacheBytes, &dojByEmpID)`
and DISCARDS its error, keeping whatever the decoder left in the map (the
map was initialized empty).  `decodeMap` models the decoder: the mapping it
produced and whether it succeeded. -/
def reuseLoad (readRes : Option String)
    (decodeMap : String → ((String → Option String) × Bool)) : LoadResult :=
  match readRes with
  | none => LoadResult.fatalErr
  | some bytes => LoadResult.okMap (decodeMap bytes).1

/-- The v7 `loadOrRebuild` dispatcher: rebuild when the cache stat failed,
or the source is strictly newer than the cache, or the force flag is set;
otherwise reuse the cache file. -/
def loadOrRebuild (cacheStatOk : Bool) (svcTime cacheTime : Int) (force : Bool)
    (rows : List SrvRow) (readRes : Option String)
    (decodeMap : String → ((String → Option String) × Bool)) : LoadResult :=
  if cacheStatOk = false ∨ cacheTime < svcTime ∨ force = true then
    LoadResult.okMap (rebuildDOJ rows)
  else reuseLoad readRes decodeMap

/-- C4.  When a rebuild is triggered (cache stat failed, cache older than
the source, or force-rebuild), the result is the rebuilt mapping, and that
mapping sends each id to the date field of the last source row whose
resolved id equals this non-empty id and whose date field is non-empty —
and to nothing when no such row exists. -/
theorem doj_rebuild_spec (cacheStatOk : Bool) (svcTime cacheTime : Int) (force : Bool)
    (rows : List SrvRow) (readRes : Option String)
    (decodeMap : String → ((String → Option String) × Bool))
    (h : cacheStatOk = false ∨ cacheTime < svcTime ∨ force = true) :
    loadOrRebuild cacheStatOk svcTime cacheTime force rows readRes decodeMap =
      LoadResult.okMap (rebuildDOJ rows) ∧
    ∀ id, rebuildDOJ rows id = lastQualDOJ rows id := by
  constructor
  · unfold loadOrRebuild
    rw [if_pos h]
  · intro id
    unfold rebuildDOJ lastQualDOJ
    rw [rebuild_foldl rows emptyMap id]
    cases hf : rows.reverse.find? (qualDOJ id) <;> simp [hf, emptyMap]

/-- C4 witness: a stale cache (source newer than cache) triggers the
rebuild on rows containing a duplicate id in two textual forms. -/
theorem doj_rebuild_spec_witness :
    ((true : Bool) = false ∨ (3 : Int) < 5 ∨ (false : Bool) = true) ∧
    (loadOrRebuild true 5 3 false
        [⟨"101.0", "01/Jan/2000", "", "", "", "", ""⟩,
         ⟨"101", "02/Feb/2001", "", "", "", "", ""⟩] none (fun _ => (emptyMap, true)) =
      LoadResult.okMap (rebuildDOJ
        [⟨"101.0", "01/Jan/2000", "", "", "", "", ""⟩,
         ⟨"101", "02/Feb/2001", "", "", "", "", ""⟩]) ∧
      ∀ id, rebuildDOJ
        [⟨"101.0", "01/Jan/2000", "", "", "", "", ""⟩,
         ⟨"101", "02/Feb/2001", "", "", "", "", ""⟩] id =
        lastQualDOJ
          [⟨"101.0", "01/Jan/2000", "", "", "", "", ""⟩,
           ⟨"101", "02/Feb/2001", "", "", "", "", ""⟩] id) :=
  ⟨by decide, doj_rebuild_spec true 5 3 false _ none _ (by decide)⟩

/-- C5 (amended).  The cache reuse path fails fatally if and only if the
cache file cannot be READ; a parse failure is silently ignored (the
`json.Unmarshal` error is discarded) and the run continues with whatever
mapping the decoder left — the decoded contents when parsing succeeded. -/
theorem cache_reuse_amended (readRes : Option String)
    (decodeMap : String → ((String → Option String) × Bool)) :
    (reuseLoad readRes decodeMap = LoadResult.fatalErr ↔ readRes = none) ∧
    (∀ b, readRes = some b →
      reuseLoad readRes decodeMap = LoadResult.okMap (decodeMap b).1) := by
  constructor
  · constructor
    · intro h
      cases readRes with
      | none => rfl
      | some b => exact LoadResult.noConfusion h
    · intro h
      subst h
      rfl
  · intro b h
    subst h
    rfl

/-- C5 (counterexample).  A readable cache file whose contents do NOT parse
(the decoder reports failure) does not abort: the reuse path returns a
(empty) mapping, contradicting "fails fatally if and only if the cache file
cannot be read or parsed". -/
theorem cache_reuse_counterexample :
    reuseLoad (some "notjson") (fun _ => (emptyMap, false)) ≠ LoadResult.fatalErr ∧
    ((fun (_ : String) => (emptyMap, false)) "notjson").2 = false :=
  ⟨fun hcontra => LoadResult.noConfusion hcontra, rfl⟩

/-- C5 witness: on a successful read with a successful parse the mapping is
exactly the decoded contents. -/
theorem cache_reuse_amended_witness :
    (some "x" = some "x") ∧
    reuseLoad (some "x") (fun _ => (updateMap emptyMap "101" "02/Feb/2001", true)) =
      LoadResult.okMap
        ((fun (_ : String) => (updateMap emptyMap "101" "02/Feb/2001", true)) "x").1 :=
  ⟨rfl, (cache_reuse_amended (some "x") _).2 "x" rfl⟩

/- ===================== Aggregation Engine (C1) ===================== -/

def trimS (s : String) : String := (trimL s.toList).asString

/-- The per-category / per-religion sex counter (`Stat` in the Go source). -/
structure Stat where
  male : Nat
  female : Nat
  deriving DecidableEq, Repr

/-- One (zone, designation) aggregate cell (`DemoStats` in the Go source);
the dynamic category/religion tables are maps created on demand. -/
structure DemoStats where
  totalMale : Nat
  totalFemale : Nat
  total : Nat
  catStats : String → Option Stat
  relStats : String → Option Stat

/-- The state mutated by the demographics loop of `buildAll`: the
zone → designation → stats table `zmap`, the running overall male/female
totals, and the flat `CATEGORY_WISE` counter map (a Go counter map: a
missing key reads as 0). -/
structure AggState where
  cells : String × String → Option DemoStats
  totalMale : Nat
  totalFemale : Nat
  catWise : String → Nat

def emptyDemo : DemoStats := ⟨0, 0, 0, fun _ => none, fun _ => none⟩

def initAgg : AggState := ⟨fun _ => none, 0, 0, fun _ => 0⟩

def zoneKey (e : Emp) : String := upperTrim e.zone

def desigKey (e : Emp) : String := trimS e.designation

def catKey (e : Emp) : String :=
  if e.selectionCategory = "" then "UNKNOWN" else e.selectionCategory

def relKey (e : Emp) : String :=
  if e.religion = "" then "UNKNOWN" else e.religion

def isMaleE (e : Emp) : Bool :=
  decide (upperTrim e.gender = "MALE") || decide (upperTrim e.gender = "M")

def isFemaleE (e : Emp) : Bool :=
  decide (upperTrim e.gender = "FEMALE") || decide (upperTrim e.gender = "F")

/-- Ensure-then-increment on a category/religion stat map entry. -/
def bumpStat (st : Option Stat) (im fe : Bool) : Stat :=
  let s := st.getD ⟨0, 0⟩
  ⟨s.male + (if im then 1 else 0), s.female + (if fe then 1 else 0)⟩

/-- Read one aggregate cell (a never-written cell reads as all-zero). -/
def cellStatsOf (cells : String × String → Option DemoStats) (z d : String) : DemoStats :=
  (cells (z, d)).getD emptyDemo

/-- The updated (zone, designation) cell after one qualifying record: the
category- and religion-keyed sex counters are bumped (created on demand),
the per-cell male/female totals are bumped for a classified sex, and the
per-cell `Total` is bumped unconditionally. -/
def newCell (A : AggState) (e : Emp) : DemoStats :=
  let st := cellStatsOf A.cells (zoneKey e) (desigKey e)
  { totalMale := st.totalMale + (if isMaleE e then 1 else 0)
    totalFemale := st.totalFemale + (if isFemaleE e then 1 else 0)
    total := st.total + 1
    catStats := fun k =>
      if k = catKey e then
        some (bumpStat (st.catStats (catKey e)) (isMaleE e) (isFemaleE e))
      else st.catStats k
    relStats := fun k =>
      if k = relKey e then
        some (bumpStat (st.relStats (relKey e)) (isMaleE e) (isFemaleE e))
      else st.relStats k }

/-- One iteration of the demographics loop of `buildAll` (v16): skip records
with an empty zone or designation; otherwise write the updated cell back
under the record's (zone, designation) key and bump the overall male/female
totals and the flat `CATEGORY_WISE` counter. -/
def demoStep (A : AggState) (e : Emp) : AggState :=
  if e.zone = "" ∨ e.designation = "" then A
  else
    { cells := fun k => if k = (zoneKey e, desigKey e) then some (newCell A e) else A.cells k
      totalMale := A.totalMale + (if isMaleE e then 1 else 0)
      totalFemale := A.totalFemale + (if isFemaleE e then 1 else 0)
      catWise := fun k => if k = catKey e then A.catWise k + 1 else A.catWise k }

/-- The demographics pass of `buildAll` over the person records (the Go loop
ranges over the `EMP` map; every counter is iteration-order independent). -/
def aggregateDemo (emps : List Emp) : AggState :=
  emps.foldl demoStep initAgg

/-- Read one aggregate cell of the final state. -/
def cellStats (A : AggState) (z d : String) : DemoStats :=
  cellStatsOf A.cells z d

/-- A record with non-empty zone and designation (the loop's guard). -/
def qual (e : Emp) : Bool := decide (e.zone ≠ "") && decide (e.designation ≠ "")

/-- A qualifying record belonging to the (z, d) cell. -/
def inCell (z d : String) (e : Emp) : Bool :=
  qual e && decide (zoneKey e = z) && decide (desigKey e = d)

def unclassifiedSex (e : Emp) : Bool := !isMaleE e && !isFemaleE e

theorem qual_false_of_skip (e : Emp) (hq : e.zone = "" ∨ e.designation = "") :
    qual e = false := by
  unfold qual
  rcases hq with h | h <;> simp [h]

theorem cellStats_demoStep (A : AggState) (e : Emp) (z d : String) :
    cellStats (demoStep A e) z d =
      if qual e = true ∧ z = zoneKey e ∧ d = desigKey e then newCell A e
      else cellStats A z d := by
  by_cases hq : e.zone = "" ∨ e.designation = ""
  · rw [show demoStep A e = A by unfold demoStep; rw [if_pos hq]]
    rw [if_neg (by
      intro hc
      rw [qual_false_of_skip e hq] at hc
      exact Bool.false_ne_true hc.1)]
  · have hqual : qual e = true := by
      unfold qual
      push_neg at hq
      simp [hq.1, hq.2]
    have hstep : (demoStep A e).cells =
        fun k => if k = (zoneKey e, desigKey e) then some (newCell A e) else A.cells k := by
      unfold demoStep
      rw [if_neg hq]
    unfold cellStats cellStatsOf
    rw [hstep]
    dsimp only
    by_cases hk : (z, d) = (zoneKey e, desigKey e)
    · have hz : z = zoneKey e := congrArg Prod.fst hk
      have hd : d = desigKey e := congrArg Prod.snd hk
      rw [if_pos hk, if_pos ⟨hqual, hz, hd⟩]
      rfl
    · rw [if_neg hk, if_neg (by
        intro hc
        exact hk (by rw [hc.2.1, hc.2.2]))]

theorem demoStep_globals (A : AggState) (e : Emp) :
    (demoStep A e).totalMale = A.totalMale + (if qual e && isMaleE e then 1 else 0) ∧
    (demoStep A e).totalFemale = A.totalFemale + (if qual e && isFemaleE e then 1 else 0) := by
  by_cases hq : e.zone = "" ∨ e.designation = ""
  · rw [show demoStep A e = A by unfold demoStep; rw [if_pos hq]]
    rw [qual_false_of_skip e hq]
    simp
  · have hqual : qual e = true := by
      unfold qual
      push_neg at hq
      simp [hq.1, hq.2]
    have h1 : (demoStep A e).totalMale = A.totalMale + (if isMaleE e then 1 else 0) := by
      unfold demoStep
      rw [if_neg hq]
    have h2 : (demoStep A e).totalFemale = A.totalFemale + (if isFemaleE e then 1 else 0) := by
      unfold demoStep
      rw [if_neg hq]
    rw [h1, h2, hqual]
    simp

theorem demoStep_props (A : AggState) (e : Emp) (z d : String) :
    (cellStats (demoStep A e) z d).total =
      (cellStats A z d).total + (if inCell z d e then 1 else 0) ∧
    (cellStats (demoStep A e) z d).totalMale =
      (cellStats A z d).totalMale + (if inCell z d e && isMaleE e then 1 else 0) ∧
    (cellStats (demoStep A e) z d).totalFemale =
      (cellStats A z d).totalFemale + (if inCell z d e && isFemaleE e then 1 else 0) ∧
    (demoStep A e).totalMale = A.totalMale + (if qual e && isMaleE e then 1 else 0) ∧
    (demoStep A e).totalFemale = A.totalFemale + (if qual e && isFemaleE e then 1 else 0) := by
  rcases demoStep_globals A e with ⟨hg1, hg2⟩
  rw [cellStats_demoStep A e z d]
  by_cases hcond : qual e = true ∧ z = zoneKey e ∧ d = desigKey e
  · have hic : inCell z d e = true := by
      unfold inCell
      simp [hcond.1, hcond.2.1.symm, hcond.2.2.symm]
    rw [if_pos hcond, hic]
    have hcell : newCell A e =
        { totalMale := (cellStats A z d).totalMale + (if isMaleE e then 1 else 0)
          totalFemale := (cellStats A z d).totalFemale + (if isFemaleE e then 1 else 0)
          total := (cellStats A z d).total + 1
          catStats := (newCell A e).catStats
          relStats := (newCell A e).relStats } := by
      unfold newCell cellStats
      rw [hcond.2.1, hcond.2.2]
    rw [hcell]
    refine ⟨rfl, ?_, ?_, hg1, hg2⟩ <;> cases him : isMaleE e <;> cases hfe : isFemaleE e <;> simp
  · have hic : inCell z d e = false := by
      unfold inCell
      by_cases h1 : qual e = true
      · by_cases h2 : zoneKey e = z
        · have h3 : ¬ desigKey e = d := by
            intro h3
            exact hcond ⟨h1, h2.symm, h3.symm⟩
          simp [h3]
        · simp [h2]
      · simp [Bool.eq_false_iff.mpr h1]
    rw [if_neg hcond, hic]
    simp [hg1, hg2]

theorem demo_foldl (l : List Emp) : ∀ (A : AggState) (z d : String),
    (cellStats (l.foldl demoStep A) z d).total =
      (cellStats A z d).total + l.countP (inCell z d) ∧
    (cellStats (l.foldl demoStep A) z d).totalMale =
      (cellStats A z d).totalMale + l.countP (fun e => inCell z d e && isMaleE e) ∧
    (cellStats (l.foldl demoStep A) z d).totalFemale =
      (cellStats A z d).totalFemale + l.countP (fun e => inCell z d e && isFemaleE e) ∧
    (l.foldl demoStep A).totalMale = A.totalMale + l.countP (fun e => qual e && isMaleE e) ∧
    (l.foldl demoStep A).totalFemale =
      A.totalFemale + l.countP (fun e => qual e && isFemaleE e) := by
  induction l with
  | nil =>
      intro A z d
      simp [List.countP_nil]
  | cons e es ih =>
      intro A z d
      rw [List.foldl_cons]
      have hstep := demoStep_props A e z d
      have hih := ih (demoStep A e) z d
      refine ⟨?_, ?_, ?_, ?_, ?_⟩ <;>
        simp only [List.countP_cons] <;>
        omega

/-- The mutually-exclusive three-way split of a count by a sex classifier:
male, female, neither. -/
theorem countP_sex_split (l : List Emp) (z d : String) :
    l.countP (inCell z d) =
      l.countP (fun e => inCell z d e && isMaleE e) +
      l.countP (fun e => inCell z d e && isFemaleE e) +
      l.countP (fun e => inCell z d e && unclassifiedSex e) := by
  induction l with
  | nil => simp [List.countP_nil]
  | cons e es ih =>
      have hexcl : isMaleE e = true → isFemaleE e = false := by
        intro hm
        unfold isMaleE at hm
        unfold isFemaleE
        simp only [Bool.or_eq_true, decide_eq_true_eq] at hm
        rcases hm with h | h <;> rw [h] <;> decide
      simp only [List.countP_cons, unclassifiedSex] at ih ⊢
      by_cases hic : inCell z d e = true <;>
        by_cases hm : isMaleE e = true <;>
        by_cases hf : isFemaleE e = true
      all_goals first
        | exact absurd hf (by rw [hexcl hm]; decide)
        | (simp [hic, hm, hf, ih] <;> omega)

/-- C1 (amended).  Every qualifying person record (non-empty zone and
designation) contributes exactly one to the total of exactly its own
(zone, designation) cell, so each cell's total counts its qualifying
records; but `total = total_male + total_female` only up to the records
whose sex token is neither male nor female: in general
`total = total_male + total_female + #unclassified-sex records` for every
cell, and likewise the overall male/female totals count only the classified
records. -/
theorem demo_total_amended (emps : List Emp) (z d : String) :
    (cellStats (aggregateDemo emps) z d).total =
      (cellStats (aggregateDemo emps) z d).totalMale +
      (cellStats (aggregateDemo emps) z d).totalFemale +
      emps.countP (fun e => inCell z d e && unclassifiedSex e) ∧
    (cellStats (aggregateDemo emps) z d).total = emps.countP (inCell z d) ∧
    (aggregateDemo emps).totalMale = emps.countP (fun e => qual e && isMaleE e) ∧
    (aggregateDemo emps).totalFemale = emps.countP (fun e => qual e && isFemaleE e) := by
  have h := demo_foldl emps initAgg z d
  have hsplit := countP_sex_split emps z d
  unfold aggregateDemo
  have h0 : (cellStats initAgg z d).total = 0 := rfl
  have h1 : (cellStats initAgg z d).totalMale = 0 := rfl
  have h2 : (cellStats initAgg z d).totalFemale = 0 := rfl
  have h3 : initAgg.totalMale = 0 := rfl
  have h4 : initAgg.totalFemale = 0 := rfl
  simp only [unclassifiedSex] at hsplit ⊢
  refine ⟨?_, ?_, ?_, ?_⟩ <;> omega

/-- C1 (counterexample).  A single record with zone "Z1", designation "D"
and sex token "OTHER" is counted in its cell's total but in neither sex
counter, so that cell violates `total = total_male + total_female`. -/
theorem demo_total_counterexample :
    (cellStats (aggregateDemo [⟨"7", "N", "D", "", "OTHER", "Z1", "", "", "",
        "", "", 0, "", ""⟩]) "Z1" "D").total = 1 ∧
    (cellStats (aggregateDemo [⟨"7", "N", "D", "", "OTHER", "Z1", "", "", "",
        "", "", 0, "", ""⟩]) "Z1" "D").totalMale = 0 ∧
    (cellStats (aggregateDemo [⟨"7", "N", "D", "", "OTHER", "Z1", "", "", "",
        "", "", 0, "", ""⟩]) "Z1" "D").totalFemale = 0 ∧
    ¬ ((cellStats (aggregateDemo [⟨"7", "N", "D", "", "OTHER", "Z1", "", "", "",
        "", "", 0, "", ""⟩]) "Z1" "D").total =
      (cellStats (aggregateDemo [⟨"7", "N", "D", "", "OTHER", "Z1", "", "", "",
        "", "", 0, "", ""⟩]) "Z1" "D").totalMale +
      (cellStats (aggregateDemo [⟨"7", "N", "D", "", "OTHER", "Z1", "", "", "",
        "", "", 0, "", ""⟩]) "Z1" "D").totalFemale) := by
  refine ⟨by decide, by decide, by decide, by decide⟩

/- ===================== Cross-Source Joiner (C3) ===================== -/

/-- A row of the roster source (Basic.csv), restricted to the fields the
reconciliation core reads; each field is the already-normalized result of
the corresponding `get(r, bm, ...)` lookup. -/
structure BasicRow where
  empIDField : String
  email : String
  name : String
  gender : String
  marital : String
  schoolField : String
  zone : String
  dob : String
  religion : String
  designation : String
  deriving DecidableEq, Repr

def canonicalCategory (raw : String) : String :=
  if upperTrim raw = "" then "UNKNOWN" else upperTrim raw

def canonicalReligion (raw : String) : String :=
  if upperTrim raw = "" then "UNKNOWN" else upperTrim raw

structure SvcDates where
  apptDate : String
  promDate : String
  transDate : String
  deriving DecidableEq, Repr

/-- The lookup maps `buildAll` (v16) fills before constructing `EMP`:
email/name/gender/marital from the roster rows, then DOJ, category and
fallback marital status from the service rows, then the services date
triple. -/
structure Lookups where
  emailBy : String → Option String
  nameBy : String → Option String
  genderBy : String → Option String
  maritalBy : String → Option String
  dojBy : String → Option String
  catBy : String → Option String
  svc : String → Option SvcDates

def emptyLookups : Lookups :=
  ⟨fun _ => none, fun _ => none, fun _ => none, fun _ => none,
   fun _ => none, fun _ => none, fun _ => none⟩

/-- First lookup loop of `buildAll` over the roster rows: skip an
unresolvable id; store each non-empty field (gender upper-cased). -/
def basicLookStep (L : Lookups) (r : BasicRow) : Lookups :=
  let id := normalizeEmpID r.empIDField
  if id = "" then L
  else
    let L1 := if r.email ≠ "" then { L with emailBy := updateMap L.emailBy id r.email } else L
    let L2 := if r.name ≠ "" then { L1 with nameBy := updateMap L1.nameBy id r.name } else L1
    let L3 := if r.gender ≠ "" then
        { L2 with genderBy := updateMap L2.genderBy id (upperS r.gender) } else L2
    if r.marital ≠ "" then { L3 with maritalBy := updateMap L3.maritalBy id r.marital } else L3

/-- Second lookup loop over the service rows: DOJ when non-empty, the
canonicalized category unconditionally, and marital status only as a
fallback when the roster left none. -/
def srvLookStep (L : Lookups) (r : SrvRow) : Lookups :=
  let id := normalizeEmpID r.empIDField
  if id = "" then L
  else
    let L1 := if r.doj ≠ "" then { L with dojBy := updateMap L.dojBy id r.doj } else L
    let L2 := { L1 with catBy := updateMap L1.catBy id (canonicalCategory r.cat) }
    if r.marital ≠ "" ∧ L2.maritalBy id = none then
      { L2 with maritalBy := updateMap L2.maritalBy id r.marital }
    else L2

/-- Third loop over the service rows: the services date triple
(unconditional, last row wins). -/
def svcDataStep (L : Lookups) (r : SrvRow) : Lookups :=
  let id := normalizeEmpID r.empIDField
  if id = "" then L
  else { L with svc := updateMap L.svc id ⟨r.apptDate, r.promDate, r.transDate⟩ }

def buildLookups (brs : List BasicRow) (srs : List SrvRow) : Lookups :=
  srs.foldl svcDataStep (srs.foldl srvLookStep (brs.foldl basicLookStep emptyLookups))

/-- The `EMP` record constructed from one roster row in `buildAll` (v16):
roster fields, lookups keyed by the resolved id (a Go map miss reads as
the empty string), the unit id extracted from the composite school field,
the upper-cased zone with an "UNKNOWN" default, the canonicalized religion
and the age derived from the date of birth. -/
def mkEmp (L : Lookups) (now : GoDate) (r : BasicRow) (id : String) : Emp :=
  { id := id
    name := (L.nameBy id).getD ""
    designation := r.designation
    dob := r.dob
    gender := (L.genderBy id).getD ""
    zone := if upperTrim r.zone = "" then "UNKNOWN" else upperTrim r.zone
    schoolID := digitsOnlyKey r.schoolField
    schoolName := r.schoolField
    selectionCategory := (L.catBy id).getD ""
    maritalStatus := (L.maritalBy id).getD ""
    religion := canonicalReligion r.religion
    age := ageFromDOB r.dob now
    email := (L.emailBy id).getD ""
    doj := (L.dojBy id).getD "" }

/-- One iteration of the `EMP`-building loop: skip the row when the person
id does not resolve, else write the constructed record under the resolved
id (a duplicate id is overwritten — last roster row wins). -/
def empStep (L : Lookups) (now : GoDate) (m : String → Option Emp) (r : BasicRow) :
    String → Option Emp :=
  let id := normalizeEmpID r.empIDField
  if id = "" then m else updateMap m id (mkEmp L now r id)

/-- The final record map of `buildAll` (v16): built from the roster rows
only; the service rows contribute only through the lookup maps. -/
def buildEMPMap (brs : List BasicRow) (srs : List SrvRow) (now : GoDate) :
    String → Option Emp :=
  brs.foldl (empStep (buildLookups brs srs) now) (fun _ => none)

theorem empFold_skip (L : Lookups) (now : GoDate) (id : String) (l : List BasicRow) :
    ∀ m : String → Option Emp, (∀ r ∈ l, normalizeEmpID r.empIDField ≠ id) →
      (l.foldl (empStep L now) m) id = m id := by
  induction l with
  | nil => intro m _; rfl
  | cons r rs ih =>
      intro m h
      rw [List.foldl_cons, ih _ (fun r1 hr1 => h r1 (List.mem_cons_of_mem r hr1))]
      unfold empStep
      by_cases h0 : normalizeEmpID r.empIDField = ""
      · rw [if_pos h0]
      · rw [if_neg h0]
        unfold updateMap
        rw [if_neg (fun hc => h r (List.mem_cons_self r rs) hc.symm)]

theorem empFold_mem (L : Lookups) (now : GoDate) (id : String) (l : List BasicRow) :
    ∀ (m : String → Option Emp) (e : Emp), (l.foldl (empStep L now) m) id = some e →
      m id = some e ∨
      (∃ r ∈ l, normalizeEmpID r.empIDField = id ∧ id ≠ "" ∧ e = mkEmp L now r id) := by
  induction l with
  | nil => intro m e h; exact Or.inl h
  | cons r rs ih =>
      intro m e h
      rw [List.foldl_cons] at h
      rcases ih _ e h with h1 | ⟨r1, hr1, hid1, hne1, he1⟩
      · unfold empStep at h1
        by_cases h0 : normalizeEmpID r.empIDField = ""
        · rw [if_pos h0] at h1
          exact Or.inl h1
        · rw [if_neg h0] at h1
          unfold updateMap at h1
          by_cases hik : id = normalizeEmpID r.empIDField
          · rw [if_pos hik] at h1
            refine Or.inr ⟨r, List.mem_cons_self r rs, hik.symm, ?_, ?_⟩
            · rw [hik]; exact h0
            · rw [hik]; exact (Option.some.injEq _ _).mp h1.symm
          · rw [if_neg hik] at h1
            exact Or.inl h1
      · exact Or.inr ⟨r1, List.mem_cons_of_mem r hr1, hid1, hne1, he1⟩

/-- C3.  Every record in the final map sits under its own resolved roster
id: `EMP[id] = some e` implies `e.id = id`, `id` is non-empty and some
roster row resolves to `id`; and an id to which no roster row resolves —
in particular one appearing only in the service-history source — is absent
from the final map, whatever the service rows contain. -/
theorem emp_map_roster_authoritative (brs : List BasicRow) (srs : List SrvRow)
    (now : GoDate) (id : String) :
    (∀ e, buildEMPMap brs srs now id = some e →
      e.id = id ∧ id ≠ "" ∧ ∃ r ∈ brs, normalizeEmpID r.empIDField = id) ∧
    ((∀ r ∈ brs, normalizeEmpID r.empIDField ≠ id) →
      buildEMPMap brs srs now id = none) := by
  constructor
  · intro e h
    rcases empFold_mem (buildLookups brs srs) now id brs _ e h with h1 | ⟨r, hr, hid, hne, he⟩
    · exact absurd h1 (by intro hc; exact Option.noConfusion hc)
    · subst he
      exact ⟨rfl, hne, r, hr, hid⟩
  · intro h
    exact empFold_skip (buildLookups brs srs) now id brs _ h

/-- C3 witness: with one roster row resolving to "123" and one service row
resolving to "999", the map holds a record under "123" whose id field is
"123", and holds nothing under the history-only id "999". -/
theorem emp_map_roster_authoritative_witness :
    (buildEMPMap [⟨"123", "", "", "", "", "", "", "", "", ""⟩]
        [⟨"999", "01/Jan/2000", "GEN", "", "", "", ""⟩] ⟨2026, 10, 11⟩ "123" =
      some ⟨"123", "", "", "", "", "UNKNOWN", "", "", "", "", "UNKNOWN", 0, "", ""⟩ ∧
      (⟨"123", "", "", "", "", "UNKNOWN", "", "", "", "", "UNKNOWN", 0, "", ""⟩ : Emp).id =
        "123" ∧ ("123" : String) ≠ "" ∧
      ∃ r ∈ [(⟨"123", "", "", "", "", "", "", "", "", ""⟩ : BasicRow)],
        normalizeEmpID r.empIDField = "123") ∧
    ((∀ r ∈ [(⟨"123", "", "", "", "", "", "", "", "", ""⟩ : BasicRow)],
        normalizeEmpID r.empIDField ≠ "999") ∧
      buildEMPMap [⟨"123", "", "", "", "", "", "", "", "", ""⟩]
        [⟨"999", "01/Jan/2000", "GEN", "", "", "", ""⟩] ⟨2026, 10, 11⟩ "999" = none) :=
  ⟨⟨by decide,
    (emp_map_roster_authoritative [⟨"123", "", "", "", "", "", "", "", "", ""⟩]
      [⟨"999", "01/Jan/2000", "GEN", "", "", "", ""⟩] ⟨2026, 10, 11⟩ "123").1
      ⟨"123", "", "", "", "", "UNKNOWN", "", "", "", "", "UNKNOWN", 0, "", ""⟩ (by decide)⟩,
   ⟨by decide,
    (emp_map_roster_authoritative [⟨"123", "", "", "", "", "", "", "", "", ""⟩]
      [⟨"999", "01/Jan/2000", "GEN", "", "", "", ""⟩] ⟨2026, 10, 11⟩ "999").2 (by decide)⟩⟩

/-- C8. The canonical person-id resolution yields the identical string on the
equivalent textual forms "123456", "123456.0" and " 123456 ": this holds for
the v16 resolution (`normalizeEmpID`) and for the v7 resolution
(`stripDot0`). -/
theorem person_id_determinism :
    normalizeEmpID "123456" = "123456" ∧
    normalizeEmpID "123456.0" = normalizeEmpID "123456" ∧
    normalizeEmpID " 123456 " = normalizeEmpID "123456" ∧
    stripDot0 "123456.0" = stripDot0 "123456" ∧
    stripDot0 " 123456 " = stripDot0 "123456" := by
  refine ⟨by decide, by decide, by decide, by decide, by decide⟩

end MCD
